import Mathlib

/-
Verification development for the two source-rewriting tools of this
repository:

  tools/lint/fix_udim.py  (Tool 2): rewrites UDim/UDim2 constructor calls
      with a zero axis pair into fromScale/fromOffset calls, via four
      re.sub passes over the whole file content.
  tools/lint/fix_lint.py  (Tool 1): renames variables reported unused by
      selene, prefixing them with an underscore, via five ordered regex
      rewrite rules applied per diagnosed line, grouped by file, sorted by
      descending line number, driven by an iteration loop capped at 5.

The Python regexes are embedded as deterministic scanners over lists of
characters.  Each concrete pattern used by the source contains only
literals, the classes \s \w [^,] [^)] [^(] [\w:.] [\w\s,] [,\s], and the
quantifiers * and +; for these patterns Python's leftmost, greedy,
backtracking search reduces to the deterministic run-based matching
implemented below (a greedy class-run followed by a character outside the
class needs no backtracking; the two places where backtracking is real,
a [^,]+ group followed by a closing parenthesis and a \s* run followed by
a class containing spaces, are implemented by their backtracked result:
the split at the last parenthesis of the run, resp. giving back one
space).  re.sub scans the original string left to right, replaces
non-overlapping matches and never rescans replacement text; count=1 stops
after the first match.  Character classes are the ASCII ones; all subject
texts are ASCII.
-/

namespace Sky

abbrev Str := List Char

/-- Python \s (ASCII): space, tab, newline, carriage return, vertical tab, form feed. -/
def isSpaceCh (c : Char) : Bool :=
  c = ' ' || c = '\t' || c = '\n' || c = '\r' || c = '\x0b' || c = '\x0c'

/-- Python \w (ASCII): letters, digits, underscore. -/
def isWordCh (c : Char) : Bool :=
  c.isAlphanum || c = '_'

/-- Match a literal string, returning the rest of the input. -/
def lit : Str → Str → Option Str
  | [], s => some s
  | _ :: _, [] => none
  | c :: cs, x :: xs => if x = c then lit cs xs else none

/-- Match a single expected character. -/
def expect (c : Char) : Str → Option Str
  | [] => none
  | x :: xs => if x = c then some xs else none

/-- Match \s+ : a nonempty maximal run of whitespace. -/
def spaces1 (s : Str) : Option (Str × Str) :=
  let t := s.takeWhile isSpaceCh
  if t.isEmpty then none else some (t, s.dropWhile isSpaceCh)

/-- Boolean string-prefix test. -/
def isPre : Str → Str → Bool
  | [], _ => true
  | _ :: _, [] => false
  | c :: cs, x :: xs => x = c && isPre cs xs

/-- Python `needle in hay` substring test. -/
def isSubstr : Str → Str → Bool
  | n, [] => n.isEmpty
  | n, x :: xs => isPre n (x :: xs) || isSubstr n xs

/-- var.startswith("_") from fix_lint.py line 84. -/
def startsWithUnd : Str → Bool
  | '_' :: _ => true
  | _ => false

/-! ## Tool 2: fix_udim.py -/

/-- Group ([^,]+) followed by a comma: the maximal run of non-comma
characters (nonempty), then the comma, both consumed.  Deterministic:
the greedy run cannot give back a character that the following comma
could match. -/
def grpThenComma (s : Str) : Option (Str × Str) :=
  let g := s.takeWhile (fun c => !(c = ','))
  match s.dropWhile (fun c => !(c = ',')) with
  | ',' :: rest => if g.isEmpty then none else some (g, rest)
  | _ => none

/-- Split a string at its last closing parenthesis: some (before, after)
with before ++ [closing] ++ after the input and after parenthesis-free
beyond... precisely the LAST occurrence. -/
def splitLast : Str → Option (Str × Str)
  | [] => none
  | c :: cs =>
    match splitLast cs with
    | some (g, t) => some (c :: g, t)
    | none => if c = ')' then some ([], cs) else none

/-- Group ([^,]+) followed by a literal closing parenthesis.  The greedy
run backtracks until the next character is the parenthesis, i.e. the
group ends just before the LAST closing parenthesis inside the maximal
non-comma run, and must be nonempty. -/
def grpThenParen (s : Str) : Option (Str × Str) :=
  let run := s.takeWhile (fun c => !(c = ','))
  let rest := s.dropWhile (fun c => !(c = ','))
  match splitLast run with
  | some (g, t) => if g.isEmpty then none else some (g, t ++ rest)
  | none => none

/-- \s*([^,]+) followed by a comma.  The greedy \s* takes the maximal
space run and the group the rest up to the comma; when everything up to
the comma is whitespace, Python backtracks one space into the group. -/
def spacedGrpThenComma (s : Str) : Option (Str × Str) :=
  let pre := s.takeWhile isSpaceCh
  let rest := s.dropWhile isSpaceCh
  match grpThenComma rest with
  | some gr => some gr
  | none =>
    match rest with
    | ',' :: r => if pre.isEmpty then none else some ([pre.getLastD ' '], r)
    | _ => none

/-- \s*([^,]+) followed by a closing parenthesis, with the same one-space
backtracking as spacedGrpThenComma when the first non-space character is
already the parenthesis. -/
def spacedGrpThenParen (s : Str) : Option (Str × Str) :=
  let pre := s.takeWhile isSpaceCh
  let rest := s.dropWhile isSpaceCh
  match grpThenParen rest with
  | some gr => some gr
  | none =>
    match rest with
    | ')' :: r => if pre.isEmpty then none else some ([pre.getLastD ' '], r)
    | _ => none

/-- re.sub pattern 1 of fix_content:
UDim2\.new\s*\(([^,]+),\s*0,\s*([^,]+),\s*0\)  →  UDim2.fromScale(\1, \2).
Returns (replacement, rest after the match) when the pattern matches at
the head of the input. -/
def tryScale2 (s : Str) : Option (Str × Str) := do
  let r ← lit "UDim2.new".data s
  let r ← expect '(' (r.dropWhile isSpaceCh)
  let (g1, r) ← grpThenComma r
  let r ← expect '0' (r.dropWhile isSpaceCh)
  let r ← expect ',' r
  let (g2, r) ← spacedGrpThenComma r
  let r ← expect '0' (r.dropWhile isSpaceCh)
  let r ← expect ')' r
  pure ("UDim2.fromScale(".data ++ g1 ++ ", ".data ++ g2 ++ [')'], r)

/-- re.sub pattern 2 of fix_content:
UDim2\.new\s*\(0,\s*([^,]+),\s*0,\s*([^,]+)\)  →  UDim2.fromOffset(\1, \2). -/
def tryOffset2 (s : Str) : Option (Str × Str) := do
  let r ← lit "UDim2.new".data s
  let r ← expect '(' (r.dropWhile isSpaceCh)
  let r ← expect '0' r
  let r ← expect ',' r
  let (g1, r) ← spacedGrpThenComma r
  let r ← expect '0' (r.dropWhile isSpaceCh)
  let r ← expect ',' r
  let (g2, r) ← spacedGrpThenParen r
  pure ("UDim2.fromOffset(".data ++ g1 ++ ", ".data ++ g2 ++ [')'], r)

/-- re.sub pattern 3 of fix_content:
UDim\.new\s*\(([^,]+),\s*0\)  →  UDim.fromScale(\1). -/
def tryScale1 (s : Str) : Option (Str × Str) := do
  let r ← lit "UDim.new".data s
  let r ← expect '(' (r.dropWhile isSpaceCh)
  let (g, r) ← grpThenComma r
  let r ← expect '0' (r.dropWhile isSpaceCh)
  let r ← expect ')' r
  pure ("UDim.fromScale(".data ++ g ++ [')'], r)

/-- re.sub pattern 4 of fix_content:
UDim\.new\s*\(0,\s*([^,]+)\)  →  UDim.fromOffset(\1). -/
def tryOffset1 (s : Str) : Option (Str × Str) := do
  let r ← lit "UDim.new".data s
  let r ← expect '(' (r.dropWhile isSpaceCh)
  let r ← expect '0' r
  let r ← expect ',' r
  let (g, r) ← spacedGrpThenParen r
  pure ("UDim.fromOffset(".data ++ g ++ [')'], r)

/-- One re.sub pass: scan left to right, at each position try the pattern;
on a match emit the replacement and continue after the match (replacement
text is not rescanned).  Fuel bounds the recursion; every pattern above
consumes at least one character, so fuel = length + 1 is exact. -/
def scanSubF (t : Str → Option (Str × Str)) : Nat → Str → Str
  | 0, s => s
  | _ + 1, [] => []
  | n + 1, c :: s =>
    match t (c :: s) with
    | some (rep, rest) => rep ++ scanSubF t n rest
    | none => c :: scanSubF t n s

def reSub (t : Str → Option (Str × Str)) (s : Str) : Str :=
  scanSubF t (s.length + 1) s

/-- fix_content of fix_udim.py: the four re.sub passes in source order. -/
def fixContentL (c : Str) : Str :=
  reSub tryOffset1 (reSub tryScale1 (reSub tryOffset2 (reSub tryScale2 c)))

def fix_content (s : String) : String :=
  String.mk (fixContentL s.data)

/-- The filesystem seen by fix_udim.py: path to file content. -/
abbrev UFS := List (Str × Str)

def ufsLookup : UFS → Str → Option Str
  | [], _ => none
  | (p, c) :: rest, q => if p = q then some c else ufsLookup rest q

def ufsUpdate : UFS → Str → Str → UFS
  | [], _, _ => []
  | (p, c) :: rest, q, v => if p = q then (p, v) :: rest else (p, c) :: ufsUpdate rest q v

/-- The per-file loop of fix_udim.py's __main__: a file that does not
exist is skipped silently (bare continue, no message); otherwise the file
is read (an unguarded open of a missing path would raise, modelled by the
error case, unreachable behind the exists guard), rewritten, and
written back with a Fixed notice only when the content changed.  The log
collects the path of each Fixed notice. -/
def udimRun : List Str → UFS → Except String (UFS × List Str)
  | [], fs => .ok (fs, [])
  | p :: ps, fs =>
    if (ufsLookup fs p).isNone then udimRun ps fs
    else
      match ufsLookup fs p with
      | none => .error "read of a missing file"
      | some old =>
        let newC := fixContentL old
        if old = newC then udimRun ps fs
        else
          match udimRun ps (ufsUpdate fs p newC) with
          | .ok (fs2, log) => .ok (fs2, p :: log)
          | .error e => .error e

/-! ## Tool 1: fix_lint.py, the five rewrite rules

Every rule is one Python regex; \b before a word character holds exactly
when the previous character is absent or not a word character, so the
scanners thread the previous character.  All substitutions are count=1
(stop after the first match), and the search preceding each substitution
uses the same pattern for rules 1 to 3 and a distinct pattern for rules 4
and 5, exactly as in the source. -/

/-- Word boundary before a word character: start of string or a non-word
previous character. -/
def noWordBefore : Option Char → Bool
  | none => true
  | some c => !(isWordCh c)

/-- Word boundary after a word character: end of string or a non-word
next character. -/
def noWordAhead : Str → Bool
  | [] => true
  | c :: _ => !(isWordCh c)

/-- Rule 1 pattern (fix_lint.py line 93), matched at one position:
\blocal\s+var(\s*=)  replaced by  local _var\1.  The \s+ run between
local and the variable is collapsed to the single space of the literal
replacement text. -/
def tryRule1 (v : Str) (prev : Option Char) (s : Str) : Option (Str × Str) :=
  if noWordBefore prev then do
    let r ← lit "local".data s
    let (_, r) ← spaces1 r
    let r ← lit v r
    let w := r.takeWhile isSpaceCh
    let r ← expect '=' (r.dropWhile isSpaceCh)
    pure ("local ".data ++ '_' :: v ++ w ++ ['='], r)
  else none

/-- Rule 2 pattern (line 101): \bfor\s+var(\s*[,\s])  replaced by
for _\1.  The group \s*[,\s] matches the space run plus a following
comma, or, backtracking one space, the space run alone. -/
def tryRule2 (v : Str) (prev : Option Char) (s : Str) : Option (Str × Str) :=
  if noWordBefore prev then do
    let r ← lit "for".data s
    let (_, r) ← spaces1 r
    let r ← lit v r
    let w := r.takeWhile isSpaceCh
    let r2 := r.dropWhile isSpaceCh
    match r2 with
    | ',' :: rest => pure ("for _".data ++ w ++ [','], rest)
    | _ => if w.isEmpty then none else pure ("for _".data ++ w, r2)
  else none

/-- Rule 3 pattern (line 109): (\bfor\s+\w+\s*,\s*)var(\s+in)  replaced
by \1_\2: the second loop variable becomes the bare underscore and both
groups are reproduced verbatim. -/
def tryRule3 (v : Str) (prev : Option Char) (s : Str) : Option (Str × Str) :=
  if noWordBefore prev then do
    let r ← lit "for".data s
    let (sp1, r) ← spaces1 r
    let w1 := r.takeWhile isWordCh
    let r1 := r.dropWhile isWordCh
    if w1.isEmpty then none
    else do
      let sp2 := r1.takeWhile isSpaceCh
      let r2 ← expect ',' (r1.dropWhile isSpaceCh)
      let sp3 := r2.takeWhile isSpaceCh
      let r3 ← lit v (r2.dropWhile isSpaceCh)
      let (sp4, r4) ← spaces1 r3
      let r5 ← lit "in".data r4
      pure ("for".data ++ sp1 ++ w1 ++ sp2 ++ [','] ++ sp3 ++ ['_'] ++ sp4 ++ "in".data, r5)
  else none

/-- The lookahead (?=[^(]*\)) of rule 4's substitution: some closing
parenthesis follows with no opening parenthesis before it. -/
def lookaheadClose : Str → Bool
  | [] => false
  | '(' :: _ => false
  | ')' :: _ => true
  | _ :: r => lookaheadClose r

/-- Rule 4 substitution pattern (line 119): \bvar\b(?=[^(]*\))  replaced
by _var.  The scan runs over the whole line, not only the parameter
list. -/
def tryRule4Sub (v : Str) (prev : Option Char) (s : Str) : Option (Str × Str) :=
  if noWordBefore prev then
    match lit v s with
    | some r => if noWordAhead r && lookaheadClose r then some ('_' :: v, r) else none
    | none => none
  else none

/-- The [^)]*\bvar\b tail of rule 4's search pattern: scanning from just
after the opening parenthesis, a word-bounded occurrence of var before
any closing parenthesis. -/
def paramHasVar (v : Str) : Char → Str → Bool
  | _, [] => false
  | prev, c :: rest =>
    if c = ')' then false
    else
      ((!(isWordCh prev)) &&
        (match lit v (c :: rest) with
         | some r => noWordAhead r
         | none => false))
      || paramHasVar v c rest

/-- Rule 4 search pattern (line 115) tried at one position:
function\s*[\w:\.]*\s*\([^)]*\bvar\b  (no leading word boundary). -/
def rule4SearchFrom (v : Str) (s : Str) : Bool :=
  match lit "function".data s with
  | none => false
  | some r =>
    let r1 := r.dropWhile isSpaceCh
    let r2 := r1.dropWhile (fun c => isWordCh c || c = ':' || c = '.')
    match r2.dropWhile isSpaceCh with
    | '(' :: inner => paramHasVar v '(' inner
    | _ => false

def rule4Search (v : Str) : Str → Bool
  | [] => false
  | c :: s => rule4SearchFrom v (c :: s) || rule4Search v s

/-- The [\w\s,]*,\s*var tail of rule 5's search pattern: scan a region of
word, space and comma characters; at each comma, try \s*var. -/
def rule5ScanA (v : Str) : Str → Bool
  | [] => false
  | c :: rest =>
    if c = ',' then
      (lit v (rest.dropWhile isSpaceCh)).isSome || rule5ScanA v rest
    else if isWordCh c || isSpaceCh c then rule5ScanA v rest
    else false

/-- Rule 5 search pattern (line 125) tried at one position:
\blocal\s+\w+[\w\s,]*,\s*var  (no trailing word boundary).  Because the
class [\w\s,] contains \w, the leading \w+ can be taken as a single word
character with the rest absorbed by the class run. -/
def rule5SearchFrom (v : Str) (prev : Option Char) (s : Str) : Bool :=
  if noWordBefore prev then
    match lit "local".data s with
    | none => false
    | some r =>
      match spaces1 r with
      | none => false
      | some (_, r2) =>
        match r2 with
        | c :: rest => isWordCh c && rule5ScanA v rest
        | [] => false
  else false

def rule5Search (v : Str) : Option Char → Str → Bool
  | _, [] => false
  | prev, c :: s => rule5SearchFrom v prev (c :: s) || rule5Search v (some c) s

/-- Rule 5 substitution pattern (line 128): ,\s*var\b  replaced by
, _var; the space run after the comma is collapsed to the single space
of the replacement literal. -/
def tryRule5Sub (v : Str) (_prev : Option Char) (s : Str) : Option (Str × Str) := do
  let r ← expect ',' s
  let r ← lit v (r.dropWhile isSpaceCh)
  if noWordAhead r then pure (", _".data ++ v, r) else none

/-- re.sub with count=1: find the leftmost match (threading the previous
character for word boundaries), splice in the replacement, keep the rest
of the original string; none when the pattern matches nowhere. -/
def subOnceFrom (t : Option Char → Str → Option (Str × Str)) :
    Option Char → Str → Option Str
  | _, [] => none
  | prev, c :: s =>
    match t prev (c :: s) with
    | some (rep, rest) => some (rep ++ rest)
    | none =>
      match subOnceFrom t (some c) s with
      | some out => some (c :: out)
      | none => none

/-- One pattern step of fix_warnings (lines 87-130): when the search hit
and the substitution changed the line, the result; otherwise none and
the next pattern is tried. -/
def tryStep (r : Option Str) (line : Str) : Option Str :=
  match r with
  | some out => if out = line then none else some out
  | none => none

/-- The per-diagnostic line rewrite of fix_warnings (lines 80-136): skip
when the line already contains _var or the variable already starts with
the underscore; otherwise the five patterns in priority order, first
change wins.  Returns the new line and whether a fix was applied. -/
def fixLine (v line : Str) : Str × Bool :=
  if isSubstr ('_' :: v) line || startsWithUnd v then (line, false) else
  match tryStep (subOnceFrom (tryRule1 v) none line) line with
  | some out => (out, true)
  | none =>
  match tryStep (subOnceFrom (tryRule2 v) none line) line with
  | some out => (out, true)
  | none =>
  match tryStep (subOnceFrom (tryRule3 v) none line) line with
  | some out => (out, true)
  | none =>
  match tryStep (if rule4Search v line then subOnceFrom (tryRule4Sub v) none line else none) line with
  | some out => (out, true)
  | none =>
  match tryStep (if rule5Search v none line then subOnceFrom (tryRule5Sub v) none line else none) line with
  | some out => (out, true)
  | none => (line, false)

/-! ## Tool 1: fix_lint.py, the fix pass over files -/

/-- A diagnostic parsed from the analyzer output (get_warnings, lines
40-44): variable name, file path, 1-based line number. -/
structure Warning where
  var : Str
  file : Str
  line : Nat
deriving DecidableEq

/-- Stable insertion of a warning into a list sorted by descending line
number; an element with an equal line number stays after the earlier
ones.  file_warnings.sort(key=..., reverse=True) is stable descending. -/
def insDesc (w : Warning) : List Warning → List Warning
  | [] => [w]
  | x :: xs => if x.line ≤ w.line then w :: x :: xs else x :: insDesc w xs

def sortDescW (ws : List Warning) : List Warning :=
  ws.foldr insDesc []

/-- The buffer index for a diagnostic (lines 76-78): Python computes
line_idx = line - 1 and skips when line_idx >= len(lines).  For line >= 1
this is plain 0-based access; line = 0 would give Python index -1, the
last line (raising on an empty buffer; that corner, unreachable from the
1-based analyzer output, is modelled as a skip). -/
def bufIdx (len line : Nat) : Option Nat :=
  if line = 0 then (if len = 0 then none else some (len - 1))
  else if len < line then none else some (line - 1)

/-- The inner loop of fix_warnings over one file's (already sorted)
diagnostics (lines 75-136): each applied fix replaces one buffer line in
place and counts 1. -/
def goWarnings : List Str → List Warning → List Str × Nat
  | lines, [] => (lines, 0)
  | lines, w :: ws =>
    match bufIdx lines.length w.line with
    | none => goWarnings lines ws
    | some i =>
      let line := lines.getD i []
      let p := fixLine w.var line
      if p.2 = true ∧ p.1 ≠ line then
        let r := goWarnings (lines.set i p.1) ws
        (r.1, r.2 + 1)
      else goWarnings lines ws

/-- One file's fix pass: sort the diagnostics by descending line number,
then apply them in order. -/
def processFileWs (lines : List Str) (ws : List Warning) : List Str × Nat :=
  goWarnings lines (sortDescW ws)

/-- Group diagnostics by file, preserving first-seen file order and
per-file encounter order (the Python dict built on lines 53-58). -/
def addW (gs : List (Str × List Warning)) (w : Warning) : List (Str × List Warning) :=
  match gs with
  | [] => [(w.file, [w])]
  | (f, l) :: rest => if f = w.file then (f, l ++ [w]) :: rest else (f, l) :: addW rest w

def groupByFile (ws : List Warning) : List (Str × List Warning) :=
  ws.foldl addW []

/-- The filesystem seen by fix_lint.py, at line granularity: path to the
list of lines (readlines/writelines keep the newline inside each line). -/
abbrev FS := List (Str × List (List Char))

def fsLookup : FS → Str → Option (List Str)
  | [], _ => none
  | (p, c) :: rest, q => if p = q then some c else fsLookup rest q

def fsUpdate : FS → Str → List Str → FS
  | [], _, _ => []
  | (p, c) :: rest, q, v => if p = q then (p, v) :: rest else (p, c) :: fsUpdate rest q v

/-- Console notices of fix_warnings that the claims need: the skip notice
for a missing file (line 64). -/
inductive LogE
  | skip (f : Str)
deriving DecidableEq

/-- The per-file loop of fix_warnings (lines 62-140): a missing file is
skipped with a notice; otherwise the file's diagnostics are applied and
the buffer is written back only when modified (modified holds exactly
when the per-file count is nonzero, both are set by the same branch). -/
def fwGo : List (Str × List Warning) → FS → FS × List LogE × Nat
  | [], fs => (fs, [], 0)
  | (f, ws) :: gs, fs =>
    match fsLookup fs f with
    | none =>
      let r := fwGo gs fs
      (r.1, LogE.skip f :: r.2.1, r.2.2)
    | some lines =>
      let p := processFileWs lines ws
      let fs1 := if p.2 = 0 then fs else fsUpdate fs f p.1
      let r := fwGo gs fs1
      (r.1, r.2.1, p.2 + r.2.2)

/-- fix_warnings (lines 49-142): group by file, process each group,
return the total count. -/
def fix_warnings (ws : List Warning) (fs : FS) : FS × List LogE × Nat :=
  fwGo (groupByFile ws) fs

/-! ## Tool 1: the iteration driver (main, lines 144-182) -/

/-- Events of one driver run: a diagnostic query inside the loop (with
the number of warnings returned), a fix pass (with the number of fixes
applied), and the final verification query after the loop. -/
inductive Ev
  | query (n : Nat)
  | fixPass (n : Nat)
  | finalQuery (n : Nat)
deriving DecidableEq

def Ev.isFix : Ev → Bool
  | .fixPass _ => true
  | _ => false

def Ev.isFinal : Ev → Bool
  | .finalQuery _ => true
  | _ => false

def countFix (evs : List Ev) : Nat := evs.countP Ev.isFix

def countFinal (evs : List Ev) : Nat := evs.countP Ev.isFinal

/-- The while loop of main: at most the given fuel many iterations
(max_iterations = 5); each iteration queries the analyzer, stops on an
empty answer, otherwise runs a fix pass and stops when it fixed
nothing.  The analyzer is abstracted as a function from the filesystem
to a list of warnings. -/
def driverLoop (analyzer : FS → List Warning) : Nat → FS → FS × List Ev
  | 0, fs => (fs, [])
  | fuel + 1, fs =>
    let ws := analyzer fs
    if ws = [] then (fs, [Ev.query 0])
    else
      let r := fix_warnings ws fs
      if r.2.2 = 0 then (r.1, [Ev.query ws.length, Ev.fixPass 0])
      else
        let rest := driverLoop analyzer fuel r.1
        (rest.1, Ev.query ws.length :: Ev.fixPass r.2.2 :: rest.2)

/-- main (lines 144-182): the capped loop, then one final verification
query used only for reporting. -/
def driverMain (analyzer : FS → List Warning) (fs : FS) : FS × List Ev :=
  let r := driverLoop analyzer 5 fs
  (r.1, r.2 ++ [Ev.finalQuery (analyzer r.1).length])

/-- The filesystem state after one query-and-fix cycle. -/
def afterOne (analyzer : FS → List Warning) (fs : FS) : FS :=
  (fix_warnings (analyzer fs) fs).1

/-- The number of fixes one query-and-fix cycle applies. -/
def cycleCount (analyzer : FS → List Warning) (fs : FS) : Nat :=
  (fix_warnings (analyzer fs) fs).2.2

/-- The number of buffer lines on which two line lists differ
(positionwise, over the common length). -/
def changedCount : List Str → List Str → Nat
  | a :: as, b :: bs => (if a = b then 0 else 1) + changedCount as bs
  | _, _ => 0

/-- A two-line file for the driver witness. -/
def fsC9 : FS :=
  [("src/a.lua".data, ["local x = 1\n".data, "local y = 2\n".data])]

/-- A concrete diagnostic source for the driver witness: reports x on
line 1 of the original file, y on line 2 once x has been fixed, and
nothing once both are fixed. -/
def anaC9 (fs : FS) : List Warning :=
  match fsLookup fs "src/a.lua".data with
  | some ls =>
    if ls = ["local x = 1\n".data, "local y = 2\n".data] then
      [⟨"x".data, "src/a.lua".data, 1⟩]
    else if ls = ["local _x = 1\n".data, "local y = 2\n".data] then
      [⟨"y".data, "src/a.lua".data, 2⟩]
    else []
  | none => []

/-! ## Claims about Tool 2's rewriter -/

/-- C1 (counterexample): fix_content is not idempotent.  On
UDim2.new(a, 0, UDim.new(0, b), 0) the first pass rewrites only the inner
single-pair constructor, to UDim.fromOffset(b); that result is comma-free,
so the second pass matches the outer two-pair pattern and rewrites again,
to UDim2.fromScale(a, UDim.fromOffset(b)). -/
theorem C1_counterexample :
    fix_content (fix_content "UDim2.new(a, 0, UDim.new(0, b), 0)")
      ≠ fix_content "UDim2.new(a, 0, UDim.new(0, b), 0)" := by
  decide


/-! ## Claims about Tool 1's per-line rewriter -/

/-- C6: a diagnostic whose variable name starts with the underscore
suppression marker is never rewritten: the guard on line 84 of
fix_lint.py skips the line unchanged. -/
theorem C6_underscore_never_rewritten (v line : Str)
    (h : startsWithUnd v = true) :
    fixLine v line = (line, false) := by
  simp [fixLine, h]

/-- C6 (witness): the documented instance, diagnostic _x on
local _x = 0. -/
theorem C6_witness :
    startsWithUnd "_x".data = true
      ∧ fixLine "_x".data "local _x = 0\n".data
          = ("local _x = 0\n".data, false) :=
  ⟨by decide, C6_underscore_never_rewritten "_x".data "local _x = 0\n".data (by decide)⟩

/-- C10: the already-prefixed guard is a plain substring test over the
whole line: whenever the string _var occurs anywhere in the line, even
inside an unrelated longer identifier, the diagnostic is skipped and the
line returned unchanged. -/
theorem C10_guard_is_substring_test (v line : Str)
    (h : isSubstr ('_' :: v) line = true) :
    fixLine v line = (line, false) := by
  simp [fixLine, h]

/-- C10 (witness): diagnostic v on a line whose only underscore text is
the unrelated identifier _vbackup; the occurrence of v itself carries no
underscore, yet the line is skipped. -/
theorem C10_witness :
    isSubstr ('_' :: "v".data) "local v = _vbackup + 1\n".data = true
      ∧ fixLine "v".data "local v = _vbackup + 1\n".data
          = ("local v = _vbackup + 1\n".data, false) :=
  ⟨by decide,
   C10_guard_is_substring_test "v".data "local v = _vbackup + 1\n".data (by decide)⟩

/-- C2 (counterexample): on g(v) function h(a, v) end the rule-4
substitution renames the v of g(v) — the first occurrence on the line
whose lookahead finds a closing parenthesis before any opening one —
which lies outside the parameter list, and leaves the parameter
untouched, contradicting the claimed result. -/
theorem C2_counterexample :
    fixLine "v".data "g(v) function h(a, v) end\n".data
        = ("g(_v) function h(a, v) end\n".data, true)
      ∧ "g(_v) function h(a, v) end\n".data
        ≠ "g(v) function h(a, _v) end\n".data := by
  decide

/-- C2 (amended): rule 4 renames the first word-bounded occurrence of the
name anywhere on the line that is followed by a closing parenthesis with
no opening parenthesis in between.  On a plain declaration line that is
the first parameter-list occurrence, also when the name recurs later in a
body fragment; but an earlier qualifying occurrence outside the parameter
list is renamed instead. -/
theorem C2_rule4_lookahead_behaviour :
    fixLine "v".data "function h(a, v) end\n".data
        = ("function h(a, _v) end\n".data, true)
    ∧ fixLine "v".data "function h(a, v) print(v)\n".data
        = ("function h(a, _v) print(v)\n".data, true)
    ∧ fixLine "v".data "g(v) function h(a, v) end\n".data
        = ("g(_v) function h(a, v) end\n".data, true) := by
  decide

/-! ## Helper lemmas -/

/-- Every branch of fixLine returns either the unchanged line with no
fix, or flags a fix. -/
theorem fixLine_cases (v line : Str) :
    fixLine v line = (line, false) ∨ (fixLine v line).2 = true := by
  unfold fixLine
  repeat' first
  | exact Or.inl rfl
  | exact Or.inr rfl
  | split

theorem goWarnings_length (ws : List Warning) :
    ∀ lines, ((goWarnings lines ws).1).length = lines.length := by
  induction ws with
  | nil => intro lines; rfl
  | cons w ws ih =>
    intro lines
    unfold goWarnings
    cases h : bufIdx lines.length w.line with
    | none => simpa using ih lines
    | some i =>
      simp only
      split
      · simpa [List.length_set] using ih (lines.set i (fixLine w.var (lines.getD i [])).1)
      · exact ih lines

theorem changedCount_self (a : List Str) : changedCount a a = 0 := by
  induction a with
  | nil => rfl
  | cons x xs ih => simp [changedCount, ih]

theorem changedCount_set_le (a : List Str) :
    ∀ (i : Nat) (x : Str), changedCount a (a.set i x) ≤ 1 := by
  induction a with
  | nil => intro i x; simp [changedCount]
  | cons y ys ih =>
    intro i x
    cases i with
    | zero =>
      rw [List.set_cons_zero]
      simp only [changedCount, changedCount_self ys]
      split <;> omega
    | succ n =>
      rw [List.set_cons_succ]
      have h := ih n x
      calc changedCount (y :: ys) (y :: ys.set n x)
          = changedCount ys (ys.set n x) := by simp [changedCount]
        _ ≤ 1 := h

theorem changedCount_triangle (a : List Str) :
    ∀ b c, a.length = b.length → b.length = c.length →
      changedCount a c ≤ changedCount a b + changedCount b c := by
  induction a with
  | nil => intro b c _ _; simp [changedCount]
  | cons x xs ih =>
    intro b c hab hbc
    cases b with
    | nil => simp at hab
    | cons y ys =>
      cases c with
      | nil => simp at hbc
      | cons z zs =>
        have hxz := ih ys zs (by simpa using hab) (by simpa using hbc)
        simp only [changedCount]
        rcases Classical.em (x = y) with h1 | h1 <;>
          rcases Classical.em (y = z) with h2 | h2
        · rw [if_pos h1, if_pos h2, if_pos (h1.trans h2)]
          omega
        · have h3 : ¬ x = z := fun h => h2 (h1 ▸ h)
          rw [if_pos h1, if_neg h2, if_neg h3]
          omega
        · have h3 : ¬ x = z := fun h => h1 (h.trans h2.symm)
          rw [if_neg h1, if_pos h2, if_neg h3]
          omega
        · rcases Classical.em (x = z) with h3 | h3
          · rw [if_neg h1, if_neg h2, if_pos h3]
            omega
          · rw [if_neg h1, if_neg h2, if_neg h3]
            omega

theorem goWarnings_changed_le (ws : List Warning) :
    ∀ lines, changedCount lines (goWarnings lines ws).1 ≤ (goWarnings lines ws).2 := by
  induction ws with
  | nil =>
    intro lines
    simpa [goWarnings] using Nat.le_of_eq (changedCount_self lines)
  | cons w ws ih =>
    intro lines
    unfold goWarnings
    cases h : bufIdx lines.length w.line with
    | none => exact ih lines
    | some i =>
      simp only
      split
      · dsimp only
        have hset := changedCount_set_le lines i (fixLine w.var (lines.getD i [])).1
        have hrest := ih (lines.set i (fixLine w.var (lines.getD i [])).1)
        have htri := changedCount_triangle lines
          (lines.set i (fixLine w.var (lines.getD i [])).1)
          ((goWarnings (lines.set i (fixLine w.var (lines.getD i [])).1) ws).1)
          (by simp [List.length_set])
          (goWarnings_length ws (lines.set i (fixLine w.var (lines.getD i [])).1)).symm
        omega
      · exact ih lines

theorem insDesc_perm (w : Warning) (l : List Warning) :
    List.Perm (insDesc w l) (w :: l) := by
  induction l with
  | nil => exact List.Perm.refl _
  | cons x xs ih =>
    unfold insDesc
    by_cases h : x.line ≤ w.line
    · rw [if_pos h]
    · rw [if_neg h]
      exact (List.Perm.cons x ih).trans (List.Perm.swap w x xs)

theorem sortDescW_perm (ws : List Warning) : List.Perm (sortDescW ws) ws := by
  induction ws with
  | nil => exact List.Perm.refl _
  | cons w ws ih =>
    exact (insDesc_perm w (sortDescW ws)).trans (List.Perm.cons w ih)

theorem insDesc_sorted (w : Warning) (l : List Warning)
    (h : List.Sorted (fun a b => b.line ≤ a.line) l) :
    List.Sorted (fun a b => b.line ≤ a.line) (insDesc w l) := by
  induction l with
  | nil => simp [insDesc]
  | cons x xs ih =>
    rw [List.sorted_cons] at h
    unfold insDesc
    by_cases hx : x.line ≤ w.line
    · rw [if_pos hx, List.sorted_cons]
      refine ⟨?_, List.sorted_cons.mpr h⟩
      intro b hb
      rcases List.mem_cons.mp hb with hbx | hbxs
      · exact hbx ▸ hx
      · exact le_trans (h.1 b hbxs) hx
    · rw [if_neg hx, List.sorted_cons]
      refine ⟨?_, ih h.2⟩
      intro b hb
      rcases List.mem_cons.mp ((insDesc_perm w xs).mem_iff.mp hb) with hbw | hbxs
      · exact hbw ▸ le_of_not_le hx
      · exact h.1 b hbxs

theorem sortDescW_sorted (ws : List Warning) :
    List.Sorted (fun a b => b.line ≤ a.line) (sortDescW ws) := by
  induction ws with
  | nil => simp [sortDescW]
  | cons w ws ih => exact insDesc_sorted w (sortDescW ws) ih

theorem udimRun_ok (ps : List Str) : ∀ fs, ∃ r, udimRun ps fs = Except.ok r := by
  induction ps with
  | nil => intro fs; exact ⟨(fs, []), rfl⟩
  | cons p ps ih =>
    intro fs
    unfold udimRun
    by_cases h : (ufsLookup fs p).isNone
    · rw [if_pos h]; exact ih fs
    · rw [if_neg h]
      cases hl : ufsLookup fs p with
      | none => rw [hl] at h; simp at h
      | some old =>
        simp only
        by_cases he : old = fixContentL old
        · rw [if_pos he]; exact ih fs
        · rw [if_neg he]
          obtain ⟨r, hr⟩ := ih (ufsUpdate fs p (fixContentL old))
          rw [hr]
          exact ⟨(r.1, p :: r.2), rfl⟩

/-! ### Characterization of one two-pair scale rewrite on symbolic
arguments.  The lemmas below evaluate the pattern-1 matcher on
UDim2.new(x, 0, y, 0) for arbitrary comma-free argument expressions x
and y, and show that the rewritten content is a fixed point of the three
remaining passes when the arguments contain no capital U (so that no
constructor-call literal can occur inside them). -/

theorem lit_append (cs : Str) : ∀ s, lit cs (cs ++ s) = some s := by
  induction cs with
  | nil => intro s; rfl
  | cons c cs ih => intro s; simp [lit, ih]

theorem lit_none_of_ne (c0 : Char) (pt : Str) (x : Char) (xs : Str) (h : ¬ x = c0) :
    lit (c0 :: pt) (x :: xs) = none := by
  simp [lit, h]

theorem span_comma (x : Str) (hx : ∀ c ∈ x, ¬ c = ',') (r : Str) :
    (x ++ ',' :: r).takeWhile (fun c => !(c = ',')) = x
      ∧ (x ++ ',' :: r).dropWhile (fun c => !(c = ',')) = ',' :: r := by
  induction x with
  | nil => constructor <;> simp
  | cons a as ih =>
    have ha : ¬ a = ',' := hx a (List.mem_cons_self a as)
    have ih2 := ih (fun c hc => hx c (List.mem_cons_of_mem a hc))
    constructor <;> simp [ha, ih2.1, ih2.2]

theorem grpThenComma_shape (x : Str) (hx : x ≠ []) (hxc : ∀ c ∈ x, ¬ c = ',') (r : Str) :
    grpThenComma (x ++ ',' :: r) = some (x, r) := by
  have hs := span_comma x hxc r
  unfold grpThenComma
  rw [hs.1, hs.2]
  cases x with
  | nil => exact absurd rfl hx
  | cons a as => rfl

theorem spacedGrpThenComma_shape (yh : Char) (yt : Str) (r : Str)
    (hyh : isSpaceCh yh = false) (hyc : ∀ c ∈ yh :: yt, ¬ c = ',') :
    spacedGrpThenComma (' ' :: yh :: (yt ++ ',' :: r)) = some (yh :: yt, r) := by
  have hg : grpThenComma ((yh :: yt) ++ ',' :: r) = some (yh :: yt, r) :=
    grpThenComma_shape (yh :: yt) (by simp) hyc r
  have hg2 : grpThenComma (yh :: (yt ++ ',' :: r)) = some (yh :: yt, r) := hg
  unfold spacedGrpThenComma
  have hsp : isSpaceCh ' ' = true := rfl
  have hpre : (' ' :: yh :: (yt ++ ',' :: r)).takeWhile isSpaceCh = [' '] := by
    simp [List.takeWhile_cons, hsp, hyh]
  have hrest : (' ' :: yh :: (yt ++ ',' :: r)).dropWhile isSpaceCh
      = yh :: (yt ++ ',' :: r) := by
    simp [List.dropWhile_cons, hsp, hyh]
  rw [hpre, hrest]
  dsimp only
  rw [hg2]

/-- The pattern-1 matcher on a two-pair constructor call with symbolic
arguments: x is any nonempty comma-free expression text, the second
argument y = yh :: yt likewise with a non-space first character; the
zero arguments are the literal 0 forms of the source pattern.  The match
consumes the whole text and yields the scale replacement with both
arguments verbatim. -/
theorem tryScale2_general (x : Str) (yh : Char) (yt : Str)
    (hx : x ≠ []) (hxc : ∀ c ∈ x, ¬ c = ',')
    (hyc : ∀ c ∈ yh :: yt, ¬ c = ',') (hyh : isSpaceCh yh = false) :
    tryScale2 ("UDim2.new".data ++
        ('(' :: (x ++ (',' :: ' ' :: '0' :: ',' :: ' ' :: yh ::
          (yt ++ (',' :: ' ' :: '0' :: ')' :: []))))))
      = some ("UDim2.fromScale(".data ++ x ++ ", ".data ++ (yh :: yt) ++ [')'], []) := by
  have h3 : grpThenComma (x ++ (',' :: ' ' :: '0' :: ',' :: ' ' :: yh ::
      (yt ++ (',' :: ' ' :: '0' :: ')' :: []))))
      = some (x, ' ' :: '0' :: ',' :: ' ' :: yh ::
          (yt ++ (',' :: ' ' :: '0' :: ')' :: []))) :=
    grpThenComma_shape x hx hxc _
  have h6 : spacedGrpThenComma (' ' :: yh :: (yt ++ (',' :: ' ' :: '0' :: ')' :: [])))
      = some (yh :: yt, ' ' :: '0' :: ')' :: []) :=
    spacedGrpThenComma_shape yh yt _ hyh hyc
  unfold tryScale2
  rw [lit_append]
  simp only [Option.bind_eq_bind', Option.some_bind']
  have h2 : expect '(' (List.dropWhile isSpaceCh ('(' :: (x ++ (',' :: ' ' :: '0' :: ',' ::
      ' ' :: yh :: (yt ++ (',' :: ' ' :: '0' :: ')' :: []))))))
      = some (x ++ (',' :: ' ' :: '0' :: ',' :: ' ' :: yh ::
          (yt ++ (',' :: ' ' :: '0' :: ')' :: [])))) := rfl
  have h4 : expect '0' (List.dropWhile isSpaceCh (' ' :: '0' :: ',' :: ' ' :: yh ::
      (yt ++ (',' :: ' ' :: '0' :: ')' :: []))))
      = some (',' :: ' ' :: yh :: (yt ++ (',' :: ' ' :: '0' :: ')' :: []))) := rfl
  have h5 : expect ',' (',' :: ' ' :: yh :: (yt ++ (',' :: ' ' :: '0' :: ')' :: [])))
      = some (' ' :: yh :: (yt ++ (',' :: ' ' :: '0' :: ')' :: []))) := rfl
  have h7 : expect '0' (List.dropWhile isSpaceCh (' ' :: '0' :: ')' :: []))
      = some (')' :: []) := rfl
  have h8 : expect ')' (')' :: ([] : Str)) = some ([] : Str) := rfl
  simp only [h2, h3, h4, h5, h6, h7, h8, Option.bind_eq_bind', Option.some_bind']
  rfl

theorem scanSubF_nil (t : Str → Option (Str × Str)) (n : Nat) : scanSubF t n [] = [] := by
  cases n <;> rfl

/-- A pattern matching the whole input at position 0 makes the re.sub
pass output exactly the replacement. -/
theorem reSub_single_match (t : Str → Option (Str × Str)) (c : Char) (s rep : Str)
    (h : t (c :: s) = some (rep, [])) :
    reSub t (c :: s) = rep := by
  unfold reSub
  rw [show (c :: s).length + 1 = (s.length + 1) + 1 from rfl]
  simp only [scanSubF, h, scanSubF_nil, List.append_nil]

/-- A re.sub pass whose pattern matches at no position leaves the input
unchanged. -/
theorem scanSubF_id (t : Str → Option (Str × Str)) :
    ∀ (n : Nat) (s : Str), (∀ u, List.IsSuffix u s → t u = none) → scanSubF t n s = s := by
  intro n
  induction n with
  | zero => intro s _; rfl
  | succ m ih =>
    intro s h
    cases s with
    | nil => rfl
    | cons c cs =>
      have h0 : t (c :: cs) = none := h (c :: cs) List.suffix_rfl
      simp only [scanSubF, h0]
      rw [ih cs (fun u hu => h u (hu.trans (List.suffix_cons c cs)))]

theorem reSub_id (t : Str → Option (Str × Str)) (s : Str)
    (h : ∀ u, List.IsSuffix u s → t u = none) : reSub t s = s :=
  scanSubF_id t (s.length + 1) s h

theorem lit_none_nil (c0 : Char) (pt : Str) : lit (c0 :: pt) [] = none := rfl

/-- A literal starting with c0 matches at no suffix of s ++ t when s has
no c0 and it matches at no suffix of t. -/
theorem lit_none_noHead (c0 : Char) (pt : Str) (s : Str)
    (hs : ∀ c ∈ s, ¬ c = c0) :
    ∀ t, (∀ u, List.IsSuffix u t → lit (c0 :: pt) u = none) →
      ∀ u, List.IsSuffix u (s ++ t) → lit (c0 :: pt) u = none := by
  induction s with
  | nil => intro t ht u hu; exact ht u (by simpa using hu)
  | cons a as ih =>
    intro t ht u hu
    rw [List.cons_append] at hu
    rcases List.suffix_cons_iff.mp hu with rfl | h2
    · exact lit_none_of_ne c0 pt a (as ++ t) (hs a (List.mem_cons_self a as))
    · exact ih (fun c hc => hs c (List.mem_cons_of_mem a hc)) t ht u h2

/-- No literal starting with capital U followed by pt matches at any
suffix of the rewritten content when the argument expressions contain no
capital U; the one position holding a U, the head, is ruled out by the
hypothesis on the whole text. -/
theorem lit_none_on_result (pt : Str) (x : Str) (yh : Char) (yt : Str)
    (hxU : ∀ c ∈ x, ¬ c = 'U') (hyU : ∀ c ∈ yh :: yt, ¬ c = 'U')
    (hwhole : lit ('U' :: pt)
        ('U' :: ("Dim2.fromScale(".data ++ (x ++ (", ".data ++ ((yh :: yt) ++ [')'])))))
      = none) :
    ∀ u, List.IsSuffix u
        ('U' :: ("Dim2.fromScale(".data ++ (x ++ (", ".data ++ ((yh :: yt) ++ [')']))))) →
      lit ('U' :: pt) u = none := by
  have base : ∀ u, List.IsSuffix u [')'] → lit ('U' :: pt) u = none := by
    intro u hu
    rcases List.suffix_cons_iff.mp hu with rfl | h2
    · exact lit_none_of_ne 'U' pt ')' [] (by decide)
    · rw [List.suffix_nil.mp h2]
      exact lit_none_nil 'U' pt
  have l1 := lit_none_noHead 'U' pt (yh :: yt) hyU [')'] base
  have l2 := lit_none_noHead 'U' pt ", ".data (by decide) ((yh :: yt) ++ [')']) l1
  have l3 := lit_none_noHead 'U' pt x hxU (", ".data ++ ((yh :: yt) ++ [')'])) l2
  have l4 := lit_none_noHead 'U' pt "Dim2.fromScale(".data (by decide)
    (x ++ (", ".data ++ ((yh :: yt) ++ [')']))) l3
  intro u hu
  rcases List.suffix_cons_iff.mp hu with rfl | h2
  · exact hwhole
  · exact l4 u h2

/-- On a content whose arguments contain no comma and no capital U,
fix_content performs exactly the documented two-pair scale rewrite: the
first pass rewrites UDim2.new(x, 0, y, 0) to UDim2.fromScale(x, y) with
both argument expressions verbatim, and the remaining three passes find
no match in the result. -/
theorem fixContent_two_pair_scale (x : Str) (yh : Char) (yt : Str)
    (hx : x ≠ []) (hxc : ∀ c ∈ x, ¬ c = ',') (hxU : ∀ c ∈ x, ¬ c = 'U')
    (hyc : ∀ c ∈ yh :: yt, ¬ c = ',') (hyU : ∀ c ∈ yh :: yt, ¬ c = 'U')
    (hyh : isSpaceCh yh = false) :
    fixContentL ("UDim2.new(".data ++ x ++ ", 0, ".data ++ (yh :: yt) ++ ", 0)".data)
      = "UDim2.fromScale(".data ++ x ++ ", ".data ++ (yh :: yt) ++ [')'] := by
  have hin : "UDim2.new(".data ++ x ++ ", 0, ".data ++ (yh :: yt) ++ ", 0)".data
      = 'U' :: 'D' :: 'i' :: 'm' :: '2' :: '.' :: 'n' :: 'e' :: 'w' :: '(' ::
          (x ++ (',' :: ' ' :: '0' :: ',' :: ' ' :: yh ::
            (yt ++ (',' :: ' ' :: '0' :: ')' :: [])))) := by
    simp [List.append_assoc]
  have h1 : tryScale2
      ('U' :: 'D' :: 'i' :: 'm' :: '2' :: '.' :: 'n' :: 'e' :: 'w' :: '(' ::
        (x ++ (',' :: ' ' :: '0' :: ',' :: ' ' :: yh ::
          (yt ++ (',' :: ' ' :: '0' :: ')' :: [])))))
      = some ("UDim2.fromScale(".data ++ x ++ ", ".data ++ (yh :: yt) ++ [')'], []) :=
    tryScale2_general x yh yt hx hxc hyc hyh
  have e1 := reSub_single_match tryScale2 'U'
    ('D' :: 'i' :: 'm' :: '2' :: '.' :: 'n' :: 'e' :: 'w' :: '(' ::
      (x ++ (',' :: ' ' :: '0' :: ',' :: ' ' :: yh ::
        (yt ++ (',' :: ' ' :: '0' :: ')' :: [])))))
    ("UDim2.fromScale(".data ++ x ++ ", ".data ++ (yh :: yt) ++ [')']) h1
  have hassoc : "UDim2.fromScale(".data ++ x ++ ", ".data ++ (yh :: yt) ++ [')']
      = 'U' :: ("Dim2.fromScale(".data ++ (x ++ (", ".data ++ ((yh :: yt) ++ [')'])))) := by
    simp [List.append_assoc]
  have hn2 : ∀ u, List.IsSuffix u
      ('U' :: ("Dim2.fromScale(".data ++ (x ++ (", ".data ++ ((yh :: yt) ++ [')']))))) →
      tryOffset2 u = none := by
    intro u hu
    have hl : lit "UDim2.new".data u = none :=
      lit_none_on_result "Dim2.new".data x yh yt hxU hyU rfl u hu
    unfold tryOffset2
    rw [hl]
    rfl
  have hn3 : ∀ u, List.IsSuffix u
      ('U' :: ("Dim2.fromScale(".data ++ (x ++ (", ".data ++ ((yh :: yt) ++ [')']))))) →
      tryScale1 u = none := by
    intro u hu
    have hl : lit "UDim.new".data u = none :=
      lit_none_on_result "Dim.new".data x yh yt hxU hyU rfl u hu
    unfold tryScale1
    rw [hl]
    rfl
  have hn4 : ∀ u, List.IsSuffix u
      ('U' :: ("Dim2.fromScale(".data ++ (x ++ (", ".data ++ ((yh :: yt) ++ [')']))))) →
      tryOffset1 u = none := by
    intro u hu
    have hl : lit "UDim.new".data u = none :=
      lit_none_on_result "Dim.new".data x yh yt hxU hyU rfl u hu
    unfold tryOffset1
    rw [hl]
    rfl
  unfold fixContentL
  rw [hin, e1, hassoc, reSub_id tryOffset2 _ hn2, reSub_id tryScale1 _ hn3,
    reSub_id tryOffset1 _ hn4]

/-- The rewritten two-pair scale content is a fixed point of all four
re.sub passes: no pattern matches anywhere in it when the argument
expressions contain no capital U. -/
theorem fixContentL_result_fixed (x : Str) (yh : Char) (yt : Str)
    (hxU : ∀ c ∈ x, ¬ c = 'U') (hyU : ∀ c ∈ yh :: yt, ¬ c = 'U') :
    fixContentL
        ('U' :: ("Dim2.fromScale(".data ++ (x ++ (", ".data ++ ((yh :: yt) ++ [')'])))))
      = 'U' :: ("Dim2.fromScale(".data ++ (x ++ (", ".data ++ ((yh :: yt) ++ [')'])))) := by
  have hn1 : ∀ u, List.IsSuffix u
      ('U' :: ("Dim2.fromScale(".data ++ (x ++ (", ".data ++ ((yh :: yt) ++ [')']))))) →
      tryScale2 u = none := by
    intro u hu
    have hl : lit "UDim2.new".data u = none :=
      lit_none_on_result "Dim2.new".data x yh yt hxU hyU rfl u hu
    unfold tryScale2
    rw [hl]
    rfl
  have hn2 : ∀ u, List.IsSuffix u
      ('U' :: ("Dim2.fromScale(".data ++ (x ++ (", ".data ++ ((yh :: yt) ++ [')']))))) →
      tryOffset2 u = none := by
    intro u hu
    have hl : lit "UDim2.new".data u = none :=
      lit_none_on_result "Dim2.new".data x yh yt hxU hyU rfl u hu
    unfold tryOffset2
    rw [hl]
    rfl
  have hn3 : ∀ u, List.IsSuffix u
      ('U' :: ("Dim2.fromScale(".data ++ (x ++ (", ".data ++ ((yh :: yt) ++ [')']))))) →
      tryScale1 u = none := by
    intro u hu
    have hl : lit "UDim.new".data u = none :=
      lit_none_on_result "Dim.new".data x yh yt hxU hyU rfl u hu
    unfold tryScale1
    rw [hl]
    rfl
  have hn4 : ∀ u, List.IsSuffix u
      ('U' :: ("Dim2.fromScale(".data ++ (x ++ (", ".data ++ ((yh :: yt) ++ [')']))))) →
      tryOffset1 u = none := by
    intro u hu
    have hl : lit "UDim.new".data u = none :=
      lit_none_on_result "Dim.new".data x yh yt hxU hyU rfl u hu
    unfold tryOffset1
    rw [hl]
    rfl
  unfold fixContentL
  rw [reSub_id tryScale2 _ hn1, reSub_id tryOffset2 _ hn2, reSub_id tryScale1 _ hn3,
    reSub_id tryOffset1 _ hn4]

theorem countFix_cons_query (n : Nat) (evs : List Ev) :
    countFix (Ev.query n :: evs) = countFix evs := by
  simp [countFix, List.countP_cons, Ev.isFix]

theorem countFix_cons_fixPass (n : Nat) (evs : List Ev) :
    countFix (Ev.fixPass n :: evs) = countFix evs + 1 := by
  simp [countFix, List.countP_cons, Ev.isFix]

theorem countFinal_cons_query (n : Nat) (evs : List Ev) :
    countFinal (Ev.query n :: evs) = countFinal evs := by
  simp [countFinal, List.countP_cons, Ev.isFinal]

theorem countFinal_cons_fixPass (n : Nat) (evs : List Ev) :
    countFinal (Ev.fixPass n :: evs) = countFinal evs := by
  simp [countFinal, List.countP_cons, Ev.isFinal]

theorem countFix_driverLoop_le (a : FS → List Warning) (fuel : Nat) :
    ∀ fs, countFix (driverLoop a fuel fs).2 ≤ fuel := by
  induction fuel with
  | zero => intro fs; exact Nat.le_refl 0
  | succ n ih =>
    intro fs
    unfold driverLoop
    by_cases h : a fs = []
    · rw [if_pos h, countFix_cons_query]
      exact Nat.zero_le _
    · rw [if_neg h]
      by_cases hz : (fix_warnings (a fs) fs).2.2 = 0
      · rw [if_pos hz]
        dsimp only
        rw [countFix_cons_query, countFix_cons_fixPass]
        have h0 : countFix ([] : List Ev) = 0 := rfl
        omega
      · rw [if_neg hz]
        dsimp only
        rw [countFix_cons_query, countFix_cons_fixPass]
        exact Nat.succ_le_succ (ih (fix_warnings (a fs) fs).1)

theorem countFinal_driverLoop (a : FS → List Warning) (fuel : Nat) :
    ∀ fs, countFinal (driverLoop a fuel fs).2 = 0 := by
  induction fuel with
  | zero => intro fs; rfl
  | succ n ih =>
    intro fs
    unfold driverLoop
    by_cases h : a fs = []
    · rw [if_pos h, countFinal_cons_query]
      rfl
    · rw [if_neg h]
      by_cases hz : (fix_warnings (a fs) fs).2.2 = 0
      · rw [if_pos hz]
        dsimp only
        rw [countFinal_cons_query, countFinal_cons_fixPass]
        rfl
      · rw [if_neg hz]
        dsimp only
        rw [countFinal_cons_query, countFinal_cons_fixPass]
        exact ih (fix_warnings (a fs) fs).1

theorem driverLoop_succ_empty (a : FS → List Warning) (fuel : Nat) (fs : FS)
    (h : a fs = []) :
    driverLoop a (fuel + 1) fs = (fs, [Ev.query 0]) := by
  simp only [driverLoop, h, if_true]

theorem driverLoop_succ_ne (a : FS → List Warning) (fuel : Nat) (fs : FS)
    (h : a fs ≠ []) (hz : (fix_warnings (a fs) fs).2.2 ≠ 0) :
    driverLoop a (fuel + 1) fs
      = ((driverLoop a fuel (fix_warnings (a fs) fs).1).1,
         Ev.query (a fs).length :: Ev.fixPass (fix_warnings (a fs) fs).2.2 ::
           (driverLoop a fuel (fix_warnings (a fs) fs).1).2) := by
  simp only [driverLoop]
  rw [if_neg h, if_neg hz]

/-! ## Remaining claims -/

/-- C3 (counterexample): Tool 2 reports nothing when skipping a missing
file: running it on one nonexistent path produces an empty log, with no
skip notice of any kind, while Tool 1 on a missing file does log a skip
notice.  The claimed skip notice from both tools is therefore false. -/
theorem C3_counterexample :
    udimRun ["missing.lua".data] ([] : UFS) = Except.ok (([] : UFS), ([] : List Str))
      ∧ (fwGo [("missing.lua".data, [])] ([] : FS)).2.1
          = [LogE.skip "missing.lua".data] :=
  ⟨rfl, rfl⟩

/-- C3 (amended): a missing target file is skipped and processing
continues with the remaining files in both tools, and the run never
fails; Tool 1 reports the skip with a notice, while Tool 2 skips
silently, its processing of the remaining files unchanged. -/
theorem C3_missing_file_skipped
    (f : Str) (ws : List Warning) (gs : List (Str × List Warning)) (fs : FS)
    (p : Str) (ps : List Str) (ufs : UFS)
    (h1 : fsLookup fs f = none) (h2 : ufsLookup ufs p = none) :
    fwGo ((f, ws) :: gs) fs
        = ((fwGo gs fs).1, LogE.skip f :: (fwGo gs fs).2.1, (fwGo gs fs).2.2)
      ∧ udimRun (p :: ps) ufs = udimRun ps ufs
      ∧ (∃ r, udimRun (p :: ps) ufs = Except.ok r) := by
  have hskip : udimRun (p :: ps) ufs = udimRun ps ufs := by
    have hn : (ufsLookup ufs p).isNone = true := by rw [h2]; rfl
    simp only [udimRun, hn, if_true]
  refine ⟨?_, hskip, ?_⟩
  · simp only [fwGo, h1]
  · rw [hskip]
    exact udimRun_ok ps ufs

/-- C3 (witness): both behaviours at concrete inputs, a one-group
warning list for a missing file and a one-path run on an empty
filesystem. -/
theorem C3_witness :
    fwGo [("a.lua".data, [])] ([] : FS)
        = ((fwGo [] ([] : FS)).1, LogE.skip "a.lua".data :: (fwGo [] ([] : FS)).2.1,
           (fwGo [] ([] : FS)).2.2)
      ∧ udimRun ["b.lua".data] ([] : UFS) = udimRun [] ([] : UFS)
      ∧ (∃ r, udimRun ["b.lua".data] ([] : UFS) = Except.ok r) :=
  C3_missing_file_skipped "a.lua".data [] [] [] "b.lua".data [] [] rfl rfl

/-- C4 (counterexample): two diagnostics on the same line of one file,
for i and for v of a generic for header, are both fixed; fix_warnings
returns 2 while exactly one distinct file line changed. -/
theorem C4_counterexample :
    fix_warnings
        [⟨"i".data, "src/b.lua".data, 1⟩, ⟨"v".data, "src/b.lua".data, 1⟩]
        [("src/b.lua".data, ["for i, v in pairs(t) do\n".data])]
      = ([("src/b.lua".data, ["for _, _ in pairs(t) do\n".data])], [], 2)
      ∧ changedCount ["for i, v in pairs(t) do\n".data]
          ["for _, _ in pairs(t) do\n".data] = 1
      ∧ (2 : Nat) ≠ 1 := by
  refine ⟨by decide, by decide, by decide⟩

/-- C4 (amended): fix_warnings counts applied diagnostics, one per fixed
diagnostic; within one file the number of distinct changed lines never
exceeds the count returned for the file, with equality failing when two
diagnostics are fixed on the same line. -/
theorem C4_changed_lines_bounded (ws : List Warning) (lines : List Str) :
    changedCount lines (processFileWs lines ws).1 ≤ (processFileWs lines ws).2 :=
  goWarnings_changed_le (sortDescW ws) lines

/-- C5 (counterexample): arbitrary non-comma argument expressions are
not carried verbatim.  With the comma-free arguments x = UDim.new(5 and
y = 0)z, pass 1 rewrites UDim2.new(UDim.new(5, 0, 0)z, 0) to
UDim2.fromScale(UDim.new(5, 0)z) — so far verbatim — but pass 3 of the
same run then rewrites the UDim.new(5, 0) fragment sitting inside the
first argument, and the output is UDim2.fromScale(UDim.fromScale(5)z)
rather than the claimed verbatim form. -/
theorem C5_counterexample :
    fix_content "UDim2.new(UDim.new(5, 0, 0)z, 0)"
        = "UDim2.fromScale(UDim.fromScale(5)z)"
      ∧ ("UDim2.fromScale(UDim.fromScale(5)z)" : String)
        ≠ "UDim2.fromScale(UDim.new(5, 0)z)" := by
  refine ⟨by decide, by decide⟩

/-- C5 (amended): the constructor rewrites, with the verbatim guarantee
restricted to arguments that no later pass can rewrite.  First, the
general two-pair scale form: for every nonempty comma-free first
argument x and second argument y (comma-free, starting with a non-space
character, neither containing a capital U, so no constructor-call
fragment occurs inside them), UDim2.new(x, 0, y, 0) is rewritten to
UDim2.fromScale(x, y) with both expressions carried verbatim.  Then the
documented examples of all four forms: scale and offset, two-pair and
single-pair. -/
theorem C5_constructor_rewrites :
    (∀ (x : Str) (yh : Char) (yt : Str),
       x ≠ [] → (∀ c ∈ x, ¬ c = ',') → (∀ c ∈ x, ¬ c = 'U') →
       (∀ c ∈ yh :: yt, ¬ c = ',') → (∀ c ∈ yh :: yt, ¬ c = 'U') →
       isSpaceCh yh = false →
       fixContentL ("UDim2.new(".data ++ x ++ ", 0, ".data ++ (yh :: yt) ++ ", 0)".data)
         = "UDim2.fromScale(".data ++ x ++ ", ".data ++ (yh :: yt) ++ [')'])
    ∧ fix_content "UDim2.new(0.5, 0, 0.3, 0)" = "UDim2.fromScale(0.5, 0.3)"
    ∧ fix_content "UDim2.new(0, 10, 0, 20)" = "UDim2.fromOffset(10, 20)"
    ∧ fix_content "UDim.new(0.5, 0)" = "UDim.fromScale(0.5)"
    ∧ fix_content "UDim.new(0, 5)" = "UDim.fromOffset(5)"
    ∧ fix_content "UDim2.new(x, 0, y, 0)" = "UDim2.fromScale(x, y)" :=
  ⟨fun x yh yt hx hxc hxU hyc hyU hyh =>
     fixContent_two_pair_scale x yh yt hx hxc hxU hyc hyU hyh,
   by decide, by decide, by decide, by decide, by decide⟩

/-- C1 (amended): one pass reaches a fixed point on every two-pair scale
content whose arguments are comma-free and contain no capital U — so no
nested constructor call — and on the five documented example inputs; a
second application changes none of them.  The counterexample shows this
fails when a nested single-pair call sits inside an argument. -/
theorem C1_idempotent_without_nesting :
    (∀ (x : Str) (yh : Char) (yt : Str),
       x ≠ [] → (∀ c ∈ x, ¬ c = ',') → (∀ c ∈ x, ¬ c = 'U') →
       (∀ c ∈ yh :: yt, ¬ c = ',') → (∀ c ∈ yh :: yt, ¬ c = 'U') →
       isSpaceCh yh = false →
       fixContentL (fixContentL
           ("UDim2.new(".data ++ x ++ ", 0, ".data ++ (yh :: yt) ++ ", 0)".data))
         = fixContentL
             ("UDim2.new(".data ++ x ++ ", 0, ".data ++ (yh :: yt) ++ ", 0)".data))
    ∧ fix_content (fix_content "UDim2.new(0.5, 0, 0.3, 0)")
        = fix_content "UDim2.new(0.5, 0, 0.3, 0)"
    ∧ fix_content (fix_content "UDim2.new(0, 10, 0, 20)")
        = fix_content "UDim2.new(0, 10, 0, 20)"
    ∧ fix_content (fix_content "UDim.new(0.5, 0)")
        = fix_content "UDim.new(0.5, 0)"
    ∧ fix_content (fix_content "UDim.new(0, 5)")
        = fix_content "UDim.new(0, 5)"
    ∧ fix_content (fix_content "UDim2.new(x, 0, y, 0)")
        = fix_content "UDim2.new(x, 0, y, 0)" := by
  refine ⟨?_, by decide, by decide, by decide, by decide, by decide⟩
  intro x yh yt hx hxc hxU hyc hyU hyh
  rw [fixContent_two_pair_scale x yh yt hx hxc hxU hyc hyU hyh]
  have hassoc : "UDim2.fromScale(".data ++ x ++ ", ".data ++ (yh :: yt) ++ [')']
      = 'U' :: ("Dim2.fromScale(".data ++ (x ++ (", ".data ++ ((yh :: yt) ++ [')'])))) := by
    simp [List.append_assoc]
  rw [hassoc]
  exact fixContentL_result_fixed x yh yt hxU hyU

/-- C1 (witness): idempotence of the rewrite on the concrete content
UDim2.new(a, 0, b, 0). -/
theorem C1_witness :
    ("a".data ≠ ([] : Str))
      ∧ fixContentL (fixContentL
            ("UDim2.new(".data ++ "a".data ++ ", 0, ".data ++ ('b' :: []) ++ ", 0)".data))
          = fixContentL
              ("UDim2.new(".data ++ "a".data ++ ", 0, ".data ++ ('b' :: []) ++ ", 0)".data) :=
  ⟨by decide,
   C1_idempotent_without_nesting.1 "a".data 'b' [] (by decide) (by decide)
     (by decide) (by decide) (by decide) (by decide)⟩

/-- C5 (witness): the general two-pair scale rewrite at the concrete
arguments 0.5 and 0.3. -/
theorem C5_witness :
    ("0.5".data ≠ ([] : Str))
      ∧ fixContentL ("UDim2.new(".data ++ "0.5".data ++ ", 0, ".data
            ++ ('0' :: ".3".data) ++ ", 0)".data)
          = "UDim2.fromScale(".data ++ "0.5".data ++ ", ".data
            ++ ('0' :: ".3".data) ++ [')'] :=
  ⟨by decide,
   C5_constructor_rewrites.1 "0.5".data '0' ".3".data (by decide) (by decide)
     (by decide) (by decide) (by decide) (by decide)⟩


/-- C7: within one file the diagnostics are applied in descending
line-number order — the processed list is sorted by descending line
number and is a permutation of the given diagnostics — and every edit is
a same-line replacement: the buffer's line count is preserved, so the
line numbers of diagnostics not yet applied stay valid throughout. -/
theorem C7_descending_same_line :
    (∀ (ws : List Warning) (lines : List Str),
       ((processFileWs lines ws).1).length = lines.length)
    ∧ (∀ ws : List Warning,
         List.Sorted (fun a b => b.line ≤ a.line) (sortDescW ws))
    ∧ (∀ ws : List Warning, List.Perm (sortDescW ws) ws) :=
  ⟨fun ws lines => goWarnings_length (sortDescW ws) lines,
   sortDescW_sorted, sortDescW_perm⟩

/-- C8 (counterexample): on local  x = 0 (two spaces) the rule-1 rewrite
returns local _x = 0, collapsing the run of whitespace between the
keyword and the variable to one space; the text besides the variable
occurrence is not preserved verbatim. -/
theorem C8_counterexample :
    fixLine "x".data "local  x = 0\n".data = ("local _x = 0\n".data, true)
      ∧ "local _x = 0\n".data ≠ "local  _x = 0\n".data := by
  refine ⟨by decide, by decide⟩

/-- C8 (amended): at most one substitution is made per line per
diagnostic — when no pattern matches, the line is returned unchanged
with no fix and no error, and a line never changes without a fix being
flagged; on a canonical single-space line the single substitution
rewrites one variable occurrence and preserves the rest, but rules 1, 2
and 5 collapse the whitespace run before the variable to a single
space. -/
theorem C8_single_substitution :
    (∀ v line, subOnceFrom (tryRule1 v) none line = none →
       subOnceFrom (tryRule2 v) none line = none →
       subOnceFrom (tryRule3 v) none line = none →
       rule4Search v line = false →
       rule5Search v none line = false →
       fixLine v line = (line, false))
    ∧ (∀ v line, (fixLine v line).2 = false → (fixLine v line).1 = line)
    ∧ fixLine "x".data "local x = 0\n".data = ("local _x = 0\n".data, true) := by
  refine ⟨?_, ?_, by decide⟩
  · intro v line h1 h2 h3 h4 h5
    by_cases hg : (isSubstr ('_' :: v) line || startsWithUnd v) = true
    · simp [fixLine, hg]
    · simp [fixLine, hg, tryStep, h1, h2, h3, h4, h5]
  · intro v line h
    rcases fixLine_cases v line with hc | hc
    · rw [hc]
    · rw [hc] at h
      exact absurd h (by simp)

/-- C8 (witness): a line matched by no pattern, diagnostic q on
return 1, is left unchanged without error. -/
theorem C8_witness :
    subOnceFrom (tryRule1 "q".data) none "return 1\n".data = none
      ∧ fixLine "q".data "return 1\n".data = ("return 1\n".data, false) :=
  ⟨by decide,
   C8_single_substitution.1 "q".data "return 1\n".data
     (by decide) (by decide) (by decide) (by decide) (by decide)⟩

/-- C9: the iteration driver.  A diagnostic sequence that becomes empty
at the third query gives exactly three in-loop queries and two fix
passes — success at pass 3, no 4th or 5th fix pass — with the run ending
in state DONE after the second fix.  In every run the loop performs at
most 5 fix passes, and after the loop exactly one further diagnostic
query is made, for reporting only, with no fix pass and no further query
after it. -/
theorem C9_driver_behaviour (a : FS → List Warning) (fs0 : FS)
    (h1 : a fs0 ≠ [])
    (h2 : cycleCount a fs0 ≠ 0)
    (h3 : a (afterOne a fs0) ≠ [])
    (h4 : cycleCount a (afterOne a fs0) ≠ 0)
    (h5 : a (afterOne a (afterOne a fs0)) = []) :
    driverMain a fs0
        = (afterOne a (afterOne a fs0),
           [Ev.query (a fs0).length, Ev.fixPass (cycleCount a fs0),
            Ev.query (a (afterOne a fs0)).length,
            Ev.fixPass (cycleCount a (afterOne a fs0)),
            Ev.query 0, Ev.finalQuery 0])
      ∧ (∀ (b : FS → List Warning) (fs : FS), countFix (driverMain b fs).2 ≤ 5)
      ∧ (∀ (b : FS → List Warning) (fs : FS), ∃ evs n,
           (driverMain b fs).2 = evs ++ [Ev.finalQuery n] ∧ countFinal evs = 0) := by
  refine ⟨?_, ?_, ?_⟩
  · simp only [afterOne, cycleCount] at h2 h3 h4 h5 ⊢
    have l3 := driverLoop_succ_empty a 2
      (fix_warnings (a (fix_warnings (a fs0) fs0).1) (fix_warnings (a fs0) fs0).1).1 h5
    have l4 := driverLoop_succ_ne a 3 (fix_warnings (a fs0) fs0).1 h3 h4
    have l5 := driverLoop_succ_ne a 4 fs0 h1 h2
    rw [l4, l3] at l5
    unfold driverMain
    rw [show (5 : Nat) = 4 + 1 from rfl, l5]
    dsimp only
    rw [h5]
    rfl
  · intro b fs
    have hl := countFix_driverLoop_le b 5 fs
    have hf : countFix [Ev.finalQuery ((b (driverLoop b 5 fs).1).length)] = 0 := rfl
    simp only [driverMain, countFix, List.countP_append] at hl hf ⊢
    omega
  · intro b fs
    exact ⟨(driverLoop b 5 fs).2, (b (driverLoop b 5 fs).1).length, rfl,
      countFinal_driverLoop b 5 fs⟩

/-- C9 (witness): the concrete two-warning run fixes one warning in each
of two passes, the third query is empty, and the trace is exactly three
loop queries, two fix passes and one final reporting query. -/
theorem C9_witness :
    anaC9 fsC9 ≠ []
      ∧ driverMain anaC9 fsC9
          = ([("src/a.lua".data, ["local _x = 1\n".data, "local _y = 2\n".data])],
             [Ev.query 1, Ev.fixPass 1, Ev.query 1, Ev.fixPass 1,
              Ev.query 0, Ev.finalQuery 0]) :=
  ⟨by decide,
   ((C9_driver_behaviour anaC9 fsC9 (by decide) (by decide) (by decide)
       (by decide) (by decide)).1).trans (by decide)⟩

end Sky
